import Mathlib

/-!
Verification of the CoNLL-U converter of `rebabel_format`
(`rebabel_format/converters/conllu.py`) and of the batch importer
(`rebabel_format/processes/importer.py`).

The decoder (`ConnluReader.process_line`) is embedded as a pure function
from a per-block counter state and an input line to the list of store
operations it performs, together with the exception (if any) that aborts
the line.  The encoder (`ConlluWriter.write`) is embedded, for a single
sentence, as a pure function from the sentence's word units (as delivered
by the store) to the list of 10-column rows it emits.  The importer loop
(`Importer.run`) is embedded with the per-file reader abstracted as a
function from a path to an optional exception.

Python strings are modelled as Lean `String`s; the Python string
operations used by the source (`split` with a one-character separator,
`split(sep, 1)`, `strip`, containment, `isdigit`, `int`) are implemented
over the underlying character list so that all definitions reduce in the
kernel.  `str.isdigit` is modelled on ASCII digits (the source is only
ever applied to id substrings, where non-ASCII digits do not occur in
well-formed data).
-/

namespace Rebabel

/-- Characters stripped by Python `str.strip()` (ASCII whitespace). -/
def pyWhitespace (c : Char) : Bool :=
  c = ' ' || c = '\t' || c = '\n' || c = '\x0d' || c = '\x0b' || c = '\x0c'

/-- Python `s.strip()`. -/
def pyStrip (s : String) : String :=
  String.mk (((s.data.dropWhile pyWhitespace).reverse.dropWhile pyWhitespace).reverse)

/-- Python `s.split(sep)` for a one-character separator, on character lists. -/
def splitAllAux (sep : Char) : List Char → List (List Char)
  | [] => [[]]
  | c :: cs =>
    let r := splitAllAux sep cs
    if c = sep then [] :: r
    else
      match r with
      | [] => [[c]]
      | x :: xs => (c :: x) :: xs

/-- Python `s.split(sep)` for a one-character separator. -/
def pySplit (sep : Char) (s : String) : List String :=
  (splitAllAux sep s.data).map String.mk

/-- Python `s.split(sep, 1)` for a one-character separator, on character
lists: `none` when the separator does not occur (Python returns the
one-element list `[s]` in that case). -/
def splitFirstAux (sep : Char) : List Char → Option (List Char × List Char)
  | [] => none
  | c :: cs =>
    if c = sep then some ([], cs)
    else
      match splitFirstAux sep cs with
      | none => none
      | some (a, b) => some (c :: a, b)

/-- Python `s.split(sep, 1)` for a one-character separator; `none` models
the separator being absent, i.e. `sep not in s`. -/
def splitFirst (sep : Char) (s : String) : Option (String × String) :=
  (splitFirstAux sep s.data).map (fun p => (String.mk p.1, String.mk p.2))

/-- Python `sep in s` for a one-character `sep`. -/
def pyContains (s : String) (sep : Char) : Bool :=
  s.data.any (fun c => c = sep)

/-- Python `s.isdigit()`, modelled on ASCII digits: nonempty and all
characters are `0`..`9`. -/
def pyIsDigit (s : String) : Bool :=
  !s.data.isEmpty && s.data.all Char.isDigit

/-- Python `int(s)` on a string of ASCII digits. -/
def digitsToNat (s : String) : Nat :=
  s.data.foldl (fun acc c => acc * 10 + (c.toNat - 48)) 0

/-- Declared feature types: the `'str'`, `'int'`, `'bool'`, `'ref'` tags
passed to `set_feature`. -/
inductive FType where
  | str
  | int
  | bool
  | ref
deriving DecidableEq, Repr

/-- Runtime values stored in features.  `bytes` models a Python `bytes`
value (only its character content is kept); it never arises from the
decoder but the encoder's legacy `v == b'0'` check mentions one. -/
inductive Value where
  | str (s : String)
  | int (n : Nat)
  | bool (b : Bool)
  | bytes (s : String)
deriving DecidableEq, Repr

/-- Python `str(v)` / f-string rendering of a stored value. -/
def pyToStr : Value → String
  | .str s => s
  | .int n => toString n
  | .bool b => if b then "True" else "False"
  | .bytes s => "b\x27" ++ s ++ "\x27"

/-- Python truthiness of a stored value. -/
def pyFalsy : Value → Bool
  | .str s => s = ""
  | .int n => n = 0
  | .bool b => !b
  | .bytes s => s = ""

/-- Python `v == True` for a stored value (`True == 1` in Python). -/
def pyEqTrue : Value → Bool
  | .str _ => false
  | .int n => n = 1
  | .bool b => b
  | .bytes _ => false

/-- Store operations performed by the decoder: `set_type`, `set_parent`,
`set_feature` and `add_relation` calls, in order. -/
inductive Op where
  | setType (node ty : String)
  | setParent (node parent : String)
  | setFeature (node tier feat : String) (ty : FType) (val : Value)
  | addRelation (src dst : String)
deriving DecidableEq, Repr

/-- Exceptions that can escape `process_line`.  The first three are the
`self.error(...)` calls of `ConnluReader.process_line` (modelled from the
spec: `LineReader.error`, which is outside the given sources, raises a
fatal `ReaderError` carrying the message, aborting the current file).
`nameError v` models a Python `NameError` on the unbound variable `v`;
it is not a `ReaderError`. -/
inductive PyError where
  | columnCount (found : Nat)
  | invalidPair (pair : String)
  | invalidDep (pair : String)
  | nameError (var : String)
deriving DecidableEq, Repr

/-- The message text of each error, as built at the `self.error` call
sites (a `NameError`'s message is produced by the interpreter). -/
def PyError.message : PyError → String
  | .columnCount n => "Expected 10 columns, found " ++ toString n ++ "."
  | .invalidPair p => "Invalid key-value pair \x27" ++ p ++ "\x27."
  | .invalidDep p => "Invalid dependency specifier \x27" ++ p ++ "\x27."
  | .nameError v => "name \x27" ++ v ++ "\x27 is not defined"

/-- Whether the exception is a `ReaderError` (raised via `self.error`),
the class caught by `Importer.run`; a `NameError` is not. -/
def PyError.isReaderError : PyError → Bool
  | .columnCount _ => true
  | .invalidPair _ => true
  | .invalidDep _ => true
  | .nameError _ => false

/-- The per-block mutable counters of `ConnluReader` (`reset` sets all
three to zero at the start of each sentence block). -/
structure RState where
  word_idx : Nat
  token_idx : Nat
  edep_count : Nat
deriving DecidableEq, Repr

/-- `ConnluReader.reset`. -/
def RState.reset : RState := ⟨0, 0, 0⟩

/-- One `FEATS`/`MISC` key-value pair: the feature written by the loop
body of `process_line` for a pair `k=v` of group `group` on node `name`
(`SpaceAfter` becomes a boolean, true unless the raw value is `'No'`). -/
def pairOp (name group k v : String) : Op :=
  if k = "SpaceAfter" then
    .setFeature name group k .bool (.bool (v ≠ "No"))
  else
    .setFeature name group k .str (.str v)

/-- The `for pair in val.split('|')` loop of `process_line` for one
group: the features written, and the `ReaderError` raised on the first
pair lacking `=` (which aborts the rest of the loop). -/
def decodePairs (name group : String) : List String → List Op × Option PyError
  | [] => ([], none)
  | pair :: rest =>
    match splitFirst '=' pair with
    | none => ([], some (.invalidPair pair))
    | some (k, v) =>
      let (ops, e) := decodePairs name group rest
      (pairOp name group k v :: ops, e)

/-- One iteration of the `for group, val in [...]` loop of
`process_line`: skip when the column is `'_'`, otherwise decode the
`|`-separated pairs. -/
def decodeGroup (name group val : String) : List Op × Option PyError :=
  if val = "_" then ([], none) else decodePairs name group (pySplit '|' val)

/-- One iteration of the `for feat, col in col_names` loop of
`process_line` for the plain string columns. -/
def colOp (name feat v : String) : List Op :=
  if v = "_" then [] else [.setFeature name "UD" feat .str (.str v)]

/-- The `head` iteration of the `col_names` loop: skipped on `'_'` and on
the literal `'0'`, otherwise a reference feature holding the raw id. -/
def headOp (name v : String) : List Op :=
  if v = "_" then []
  else if v = "0" then []
  else [.setFeature name "UD" "head" .ref (.str v)]

/-- The whole `col_names` loop of `process_line`, unrolled in source
order (`form`, `lemma`, `upos`, `xpos`, `head`, `deprel`). -/
def decodeCols (name : String) (c : List String) : List Op :=
  colOp name "form" (c.getD 1 "") ++ colOp name "lemma" (c.getD 2 "") ++
  colOp name "upos" (c.getD 3 "") ++ colOp name "xpos" (c.getD 4 "") ++
  headOp name (c.getD 6 "") ++ colOp name "deprel" (c.getD 7 "")

/-- The `DEPS` loop of `process_line` (`for pair in columns[8].split('|')`),
carrying the running `edep_count`.  For a pair containing `:`, the source
increments the counter, declares the synthetic `UD-edep` node's type and
parent, splits the pair into `head, rel` — and then executes
`self.set_feature(ename, 'UD', 'parent', 'ref', h)` where `h` is a
variable never assigned anywhere in `process_line`, its class, or the
module: evaluating `h` raises `NameError`, after the type and parent
declarations took effect and before any of the three features is set. -/
def decodeDeps (_name : String) : Nat → List String → Nat × List Op × Option PyError
  | cnt, [] => (cnt, [], none)
  | cnt, pair :: _rest =>
    match splitFirst ':' pair with
    | none => (cnt, [], some (.invalidDep pair))
    | some (_head, _rel) =>
      let cnt' := cnt + 1
      let ename := "\t" ++ toString cnt'
      (cnt', [.setType ename "UD-edep", .setParent ename "sentence"],
       some (.nameError "h"))

/-- The containment relations of a token row (lines 79–82 of
`conllu.py`): `a, b = name.split('-', 1)`; when both halves are numeric,
one relation per word id in the inclusive range `[int(a), int(b)]`. -/
def relOps (name : String) : List Op :=
  match splitFirst '-' name with
  | some ab =>
    if pyIsDigit ab.1 && pyIsDigit ab.2 then
      (List.range' (digitsToNat ab.1) (digitsToNat ab.2 + 1 - digitsToNat ab.1)).map
        (fun ch => .addRelation (toString ch) name)
    else []
  | none => []

/-- Lines 71–86 of `conllu.py`: declare the node's type (`token` when
the id contains `-`, else `word`) and parent, store `UD:id`, bump the
appropriate per-block counter into `meta:index`, and, for a token, add
the containment relations; for a word, store the `UD:null` flag. -/
def nodeOps (st : RState) (name : String) : RState × List Op :=
  let is_token := pyContains name '-'
  let pre : List Op :=
    [.setType name (if is_token then "token" else "word"),
     .setParent name "sentence",
     .setFeature name "UD" "id" .str (.str name)]
  if is_token then
    ({st with token_idx := st.token_idx + 1},
     pre ++ Op.setFeature name "meta" "index" .int (.int (st.token_idx + 1)) :: relOps name)
  else
    ({st with word_idx := st.word_idx + 1},
     pre ++ [Op.setFeature name "meta" "index" .int (.int (st.word_idx + 1)),
             Op.setFeature name "UD" "null" .bool (.bool (pyContains name '.'))])

/-- The annotation-row part of `process_line` (lines 71–123), after the
column split has yielded exactly 10 columns. -/
def processRow (st : RState) (columns : List String) : RState × List Op × Option PyError :=
  let name := columns.getD 0 ""
  let st1 := (nodeOps st name).1
  let baseOps := (nodeOps st name).2
  let featRes := decodeGroup name "UD/FEATS" (columns.getD 5 "")
  match featRes.2 with
  | some e => (st1, baseOps ++ featRes.1, some e)
  | none =>
    let miscRes := decodeGroup name "UD/MISC" (columns.getD 9 "")
    match miscRes.2 with
    | some e => (st1, baseOps ++ featRes.1 ++ miscRes.1, some e)
    | none =>
      let colOps := decodeCols name columns
      if columns.getD 8 "" = "_" then
        (st1, baseOps ++ featRes.1 ++ miscRes.1 ++ colOps, none)
      else
        let depRes := decodeDeps name st1.edep_count (pySplit '|' (columns.getD 8 ""))
        ({st1 with edep_count := depRes.1},
         baseOps ++ featRes.1 ++ miscRes.1 ++ colOps ++ depRes.2.1, depRes.2.2)

/-- `ConnluReader.process_line`: from the current per-block counters and
one input line to the updated counters, the store operations performed
in order, and the exception (if any) that aborted the line. -/
def processLine (st : RState) (line : String) : RState × List Op × Option PyError :=
  if line = "" then (st, [], none)
  else if line.data.headD ' ' = '#' then
    match splitFirst '=' (String.mk (line.data.drop 1)) with
    | some (k, v) =>
      (st, [.setFeature "sentence" "UD" (pyStrip k) .str (.str (pyStrip v))], none)
    | none => (st, [], none)
  else
    let columns := pySplit '\t' (pyStrip line)
    if columns.length ≠ 10 then
      (st, [], some (.columnCount columns.length))
    else
      processRow st columns

/-! ## Encoder (`ConlluWriter.write`)

The store hands the writer, for each unit, a dict from opaque feature
keys to values; `feat_dict` maps each key to its `(tier, name, type)`
triple.  The embedding uses the triple itself as the key (distinct
`(tier, name)` pairs have distinct keys in the store), so `feat_dict` is
the identity and a unit's features are an association list from triples
to values. -/

/-- A feature key as the writer sees it: its `(tier, name, type)` triple. -/
abbrev FKey := String × String × FType

/-- One unit's features, in the store's iteration order. -/
abbrev Feats := List (FKey × Value)

/-- The key the writer's `null` variable holds: the one whose
`feat_dict` entry is `('UD', 'null', 'bool')`. -/
def nullKey : FKey := ("UD", "null", FType.bool)

/-- Dict lookup in a unit's feature dict. -/
def lookupFeat (fs : Feats) (k : FKey) : Option Value :=
  (fs.find? (fun kv => decide (kv.1 = k))).map (fun kv => kv.2)

/-- The test `wfeats.get(null, False) == True` of the per-word loop. -/
def isNullOf (wfeats : Feats) : Bool :=
  pyEqTrue ((lookupFeat wfeats nullKey).getD (.bool false))

/-- Python `<` on strings: lexicographic by code point. -/
def lexLt : List Char → List Char → Bool
  | [], [] => false
  | [], _ :: _ => true
  | _ :: _, [] => false
  | a :: as, b :: bs =>
    if a.toNat < b.toNat then true
    else if a.toNat = b.toNat then lexLt as bs
    else false

/-- Python `a < b` on strings. -/
def strLt (a b : String) : Bool := lexLt a.data b.data

/-- Insertion into a sorted list, after all elements `≤` the new one. -/
def insertLe (x : String) : List String → List String
  | [] => [x]
  | y :: ys => if strLt x y then x :: y :: ys else y :: insertLe x ys

/-- Python `sorted` on a list of strings (stable, ascending). -/
def pySorted (l : List String) : List String :=
  l.foldl (fun acc x => insertLe x acc) []

/-- Python `sep.join(l)`. -/
def pyJoin (sep : String) : List String → String
  | [] => ""
  | [x] => x
  | x :: y :: xs => x ++ sep ++ pyJoin sep (y :: xs)

/-- The accumulators of the per-word loop body: the 10-column row and
the `FEAT`, `MISC` and per-word `heads` lists. -/
structure RowAcc where
  row : List String
  feats : List String
  misc : List String
  heads : List Value
deriving DecidableEq, Repr

/-- The `for i, v in wfeats.items()` loop body of `ConlluWriter.write`
(the source stores raw values into `row`; rows are modelled as strings
via `pyToStr`, which agrees with the source's later `==` comparisons
against string literals and with the final `join`). -/
def procItem (acc : RowAcc) (kv : FKey × Value) : RowAcc :=
  let tier := kv.1.1
  let feat := kv.1.2.1
  let typ := kv.1.2.2
  let v := kv.2
  if tier = "UD/FEATS" then
    {acc with feats := acc.feats ++ [feat ++ "=" ++ pyToStr v]}
  else if tier = "UD/MISC" then
    let vs :=
      if feat = "SpaceAfter" ∧ typ = FType.bool then
        if pyFalsy v || v = Value.bytes "0" then "No" else "Yes"
      else pyToStr v
    {acc with misc := acc.misc ++ [feat ++ "=" ++ vs]}
  else if tier = "UD" then
    if feat = "form" then {acc with row := acc.row.set 1 (pyToStr v)}
    else if feat = "lemma" then {acc with row := acc.row.set 2 (pyToStr v)}
    else if feat = "upos" then {acc with row := acc.row.set 3 (pyToStr v)}
    else if feat = "xpos" then {acc with row := acc.row.set 4 (pyToStr v)}
    else if feat = "deprel" then {acc with row := acc.row.set 7 (pyToStr v)}
    else if feat = "head" then {acc with heads := acc.heads ++ [v]}
    else acc
  else acc

/-- The rest of the per-word loop body: fold the word's features into a
fresh row `[widx, '_', ..., '_']`, then fill columns 5 and 9 with the
sorted, `|`-joined `FEAT`/`MISC` lists when nonempty.  Returns the
finished row and the word's recorded head values. -/
def buildRow (widx : String) (wfeats : Feats) : List String × List Value :=
  let acc := wfeats.foldl procItem ⟨widx :: List.replicate 9 "_", [], [], []⟩
  let row1 :=
    if acc.feats.isEmpty then acc.row
    else acc.row.set 5 (pyJoin "|" (pySorted acc.feats))
  let row2 :=
    if acc.misc.isEmpty then row1
    else row1.set 9 (pyJoin "|" (pySorted acc.misc))
  (row2, acc.heads)

/-- The position rendering of the per-word loop: from the two counters
`idx1`, `idx2` and the word's null test to the updated counters and the
rendered position string. -/
def renderPos (idx1 idx2 : Nat) (isNull : Bool) : Nat × Nat × String :=
  if isNull then (idx1, idx2 + 1, toString idx1 ++ ":" ++ toString (idx2 + 1))
  else (idx1 + 1, 0, toString (idx1 + 1))

/-- The loop state of the per-sentence word pass: the emitted rows, the
`id2idx` dict (most recent binding first), the two position counters and
the deferred `(row index, head value)` list. -/
structure SentAcc where
  words : List (List String)
  id2idx : List (String × String)
  idx1 : Nat
  idx2 : Nat
  heads : List (Nat × Value)
deriving DecidableEq, Repr

/-- One iteration of the `for wid, wfeats in self.iter_units('word', feat_list, sid)`
loop: render the position, build the row, record `id2idx[wid]` and defer
the head values with the current row index (`len(words)` before the
append). -/
def wordStep (acc : SentAcc) (w : String × Feats) : SentAcc :=
  let r := renderPos acc.idx1 acc.idx2 (isNullOf w.2)
  let widx := r.2.2
  let b := buildRow widx w.2
  { words := acc.words ++ [b.1],
    id2idx := (w.1, widx) :: acc.id2idx,
    idx1 := r.1, idx2 := r.2.1,
    heads := acc.heads ++ b.2.map (fun v => (acc.words.length, v)) }

/-- The whole word pass over one sentence's word units, from empty
accumulators and zero counters. -/
def wordPass (ws : List (String × Feats)) : SentAcc :=
  ws.foldl wordStep ⟨[], [], 0, 0, []⟩

/-- Lookup in the `id2idx` dict (most recent binding wins, as the dict's
last write does). -/
def dictGet (m : List (String × String)) (k : String) : Option String :=
  (m.find? (fun p => decide (p.1 = k))).map (fun p => p.2)

/-- The deferred head resolution of `ConlluWriter.write`
(`for i, h in heads: if h in id2idx: words[i][6] = id2idx[h]`).  The
dict's keys are word-id strings, so a non-string stored head value never
passes the membership test. -/
def resolveHeads (id2idx : List (String × String)) (rows : List (List String)) :
    List (Nat × Value) → List (List String)
  | [] => rows
  | (i, h) :: rest =>
    let rows' :=
      match h with
      | .str s =>
        match dictGet id2idx s with
        | some widx => rows.set i ((rows.getD i []).set 6 widx)
        | none => rows
      | _ => rows
    resolveHeads id2idx rows' rest

/-- The root fix-up loop of `ConlluWriter.write`: rows whose head column
is still `'_'` and whose deprel column equals `'root'` get head `'0'`. -/
def rootFixup (rows : List (List String)) : List (List String) :=
  rows.map (fun row =>
    if row.getD 6 "" = "_" ∧ row.getD 7 "" = "root" then row.set 6 "0" else row)

/-- The row-producing part of `ConlluWriter.write` for one sentence: the
word pass, then deferred head resolution, then root fix-up.  (Comment
emission and the final text join do not affect the rows; multiword token
rows are not emitted, as the source's `TODO: tokens` records.) -/
def writeSentence (ws : List (String × Feats)) : List (List String) :=
  let acc := wordPass ws
  rootFixup (resolveHeads acc.id2idx acc.words acc.heads)

/-! ## Importer (`Importer.run`) -/

/-- `Importer.run`'s per-file loop, with the reader's `read` abstracted
as a function from a path to the exception it raises (`none` means
success).  Produces the per-file log in order — `(path, true)` for a
successful read, `(path, false)` for a logged failure — together with
the first uncaught exception, which aborts the remainder of the batch:
only `ReaderError`s are caught (`except ReaderError`). -/
def importerRun (decode : String → Option PyError) :
    List String → List (String × Bool) × Option PyError
  | [] => ([], none)
  | pth :: rest =>
    match decode pth with
    | none =>
      ((pth, true) :: (importerRun decode rest).1, (importerRun decode rest).2)
    | some err =>
      if err.isReaderError then
        ((pth, false) :: (importerRun decode rest).1, (importerRun decode rest).2)
      else ([], some err)

/-! ## Observers used to state the theorems -/

/-- The pair named by an `invalidPair` exception, if that is what the
exception is. -/
def errPair : Option PyError → Option String
  | some (.invalidPair p) => some p
  | _ => none

/-- Whether the exception is an `invalidPair` (`Invalid key-value pair`)
error. -/
def errIsInvalidPair (e : Option PyError) : Bool := (errPair e).isSome

/-- The first `|`-separated pair of a `FEATS`/`MISC` column value that
lacks `=` (`none` when the column is `'_'` or every pair has one). -/
def firstBadPair (val : String) : Option String :=
  if val = "_" then none
  else (pySplit '|' val).find? (fun p => (splitFirst '=' p).isNone)

/-! ## Lemmas about the decoder -/

theorem decodePairs_err (name group : String) (ps : List String) :
    (decodePairs name group ps).2 =
      (ps.find? (fun p => (splitFirst '=' p).isNone)).map .invalidPair := by
  induction ps with
  | nil => rfl
  | cons p rest ih =>
    cases h : splitFirst '=' p with
    | none =>
      rw [List.find?_cons_of_pos _ (by simp [h])]
      simp [decodePairs, h]
    | some kv =>
      rw [List.find?_cons_of_neg _ (by simp [h])]
      simp [decodePairs, h, ih]

theorem decodeGroup_err (name group val : String) :
    (decodeGroup name group val).2 = (firstBadPair val).map .invalidPair := by
  unfold decodeGroup firstBadPair
  by_cases h : val = "_" <;> simp [h, decodePairs_err]

theorem pairOp_shape (name group k v : String) :
    ∃ ty val, pairOp name group k v = .setFeature name group k ty val := by
  unfold pairOp
  by_cases h : k = "SpaceAfter" <;> simp [h]

theorem decodePairs_ops_shape (name group : String) (ps : List String) :
    ∀ op ∈ (decodePairs name group ps).1, ∃ k ty v, op = .setFeature name group k ty v := by
  induction ps with
  | nil => simp [decodePairs]
  | cons p rest ih =>
    cases h : splitFirst '=' p with
    | none => simp [decodePairs, h]
    | some kv =>
      intro op hop
      simp [decodePairs, h] at hop
      rcases hop with hop | hop
      · obtain ⟨ty, val, hty⟩ := pairOp_shape name group kv.1 kv.2
        exact ⟨kv.1, ty, val, by rw [hop, hty]⟩
      · exact ih op hop

theorem decodePairs_mem (name group : String) (ps : List String)
    (hok : (decodePairs name group ps).2 = none) (op : Op) :
    op ∈ (decodePairs name group ps).1 ↔
      ∃ p ∈ ps, ∃ k raw, splitFirst '=' p = some (k, raw) ∧ op = pairOp name group k raw := by
  induction ps with
  | nil => simp [decodePairs]
  | cons p rest ih =>
    cases h : splitFirst '=' p with
    | none => rw [decodePairs_err] at hok; simp [h] at hok
    | some kv =>
      have hok' : (decodePairs name group rest).2 = none := by
        rw [decodePairs_err] at hok ⊢
        rw [List.find?_cons_of_neg _ (by simp [h])] at hok
        exact hok
      simp only [decodePairs, h, List.mem_cons]
      constructor
      · intro hop
        rcases hop with hop | hop
        · exact ⟨p, Or.inl rfl, kv.1, kv.2, h, hop⟩
        · obtain ⟨q, hq, k, raw, hks, hkop⟩ := (ih hok').1 hop
          exact ⟨q, Or.inr hq, k, raw, hks, hkop⟩
      · rintro ⟨q, hq | hq, k, raw, hks, hkop⟩
        · subst hq; rw [h] at hks
          cases hks
          exact Or.inl hkop
        · exact Or.inr ((ih hok').2 ⟨q, hq, k, raw, hks, hkop⟩)

theorem decodeGroup_mem (name group val : String)
    (hok : (decodeGroup name group val).2 = none) (op : Op) :
    op ∈ (decodeGroup name group val).1 ↔
      val ≠ "_" ∧ ∃ p ∈ pySplit '|' val, ∃ k raw,
        splitFirst '=' p = some (k, raw) ∧ op = pairOp name group k raw := by
  unfold decodeGroup at hok ⊢
  by_cases h : val = "_"
  · simp [h]
  · simp only [h, if_false]
    simp only [h, if_false] at hok
    rw [decodePairs_mem name group _ hok]
    simp [h]

theorem decodeGroup_ops_shape (name group val : String) :
    ∀ op ∈ (decodeGroup name group val).1, ∃ k ty v, op = .setFeature name group k ty v := by
  unfold decodeGroup
  by_cases h : val = "_"
  · simp [h]
  · simp only [h, if_false]
    exact decodePairs_ops_shape name group _

theorem decodeDeps_err_shape (name : String) (cnt : Nat) (ps : List String) (e : PyError)
    (he : (decodeDeps name cnt ps).2.2 = some e) :
    (∃ p, e = .invalidDep p) ∨ e = .nameError "h" := by
  cases ps with
  | nil => simp [decodeDeps] at he
  | cons p rest =>
    cases h : splitFirst ':' p with
    | none => simp [decodeDeps, h] at he; exact Or.inl ⟨p, he.symm⟩
    | some hr => simp [decodeDeps, h] at he; exact Or.inr he.symm

theorem decodeDeps_ops_shape (name : String) (cnt : Nat) (ps : List String) :
    ∀ op ∈ (decodeDeps name cnt ps).2.1,
      op = .setType ("\t" ++ toString (cnt + 1)) "UD-edep" ∨
      op = .setParent ("\t" ++ toString (cnt + 1)) "sentence" := by
  cases ps with
  | nil => simp [decodeDeps]
  | cons p rest =>
    cases h : splitFirst ':' p with
    | none => simp [decodeDeps, h]
    | some hr => intro op hop; simpa [decodeDeps, h] using hop

theorem colOp_mem (name feat v : String) (op : Op) :
    op ∈ colOp name feat v ↔ v ≠ "_" ∧ op = .setFeature name "UD" feat .str (.str v) := by
  unfold colOp
  by_cases h : v = "_" <;> simp [h]

theorem headOp_mem (name v : String) (op : Op) :
    op ∈ headOp name v ↔
      v ≠ "_" ∧ v ≠ "0" ∧ op = .setFeature name "UD" "head" .ref (.str v) := by
  unfold headOp
  by_cases h : v = "_"
  · simp [h]
  · by_cases h0 : v = "0" <;> simp [h, h0]

theorem relOps_mem (name : String) (op : Op) :
    op ∈ relOps name ↔
      ∃ ab, splitFirst '-' name = some ab ∧ (pyIsDigit ab.1 && pyIsDigit ab.2) = true ∧
        ∃ ch ∈ List.range' (digitsToNat ab.1) (digitsToNat ab.2 + 1 - digitsToNat ab.1),
          op = .addRelation (toString ch) name := by
  cases hs : splitFirst '-' name with
  | none => simp [relOps, hs]
  | some ab =>
    by_cases hd : pyIsDigit ab.1 && pyIsDigit ab.2
    · simp only [relOps, hs, hd, if_true, List.mem_map, Option.some.injEq]
      constructor
      · rintro ⟨ch, hch, rfl⟩
        exact ⟨ab, rfl, hd, ch, hch, rfl⟩
      · rintro ⟨ab', hab', -, ch, hch, rfl⟩
        cases hab'
        exact ⟨ch, hch, rfl⟩
    · simp only [relOps, hs, hd, Bool.false_eq_true, if_false, List.not_mem_nil, false_iff]
      rintro ⟨ab', hab', hd', -⟩
      cases hab'
      exact hd hd'

theorem nodeOps_shape (st : RState) (name : String) :
    ∀ op ∈ (nodeOps st name).2,
      op = .setType name "token" ∨ op = .setType name "word" ∨
      op = .setParent name "sentence" ∨
      op = .setFeature name "UD" "id" .str (.str name) ∨
      (∃ n, op = .setFeature name "meta" "index" .int (.int n)) ∨
      (∃ b, op = .setFeature name "UD" "null" .bool (.bool b)) ∨
      (∃ s, op = .addRelation s name) := by
  simp only [nodeOps]
  by_cases ht : pyContains name '-'
  · simp only [ht, if_true]
    intro op hop
    simp only [List.mem_append, List.mem_cons] at hop
    rcases hop with (hop | hop | hop | hop) | hop | hop
    · exact Or.inl hop
    · exact Or.inr (Or.inr (Or.inl hop))
    · exact Or.inr (Or.inr (Or.inr (Or.inl hop)))
    · simp at hop
    · exact Or.inr (Or.inr (Or.inr (Or.inr (Or.inl ⟨_, hop⟩))))
    · obtain ⟨ab, -, -, ch, -, hch⟩ := (relOps_mem name op).1 hop
      exact Or.inr (Or.inr (Or.inr (Or.inr (Or.inr (Or.inr ⟨_, hch⟩)))))
  · simp only [ht, Bool.false_eq_true, if_false]
    intro op hop
    simp only [List.mem_append, List.mem_cons] at hop
    rcases hop with (hop | hop | hop | hop) | hop | hop
    · exact Or.inr (Or.inl hop)
    · exact Or.inr (Or.inr (Or.inl hop))
    · exact Or.inr (Or.inr (Or.inr (Or.inl hop)))
    · simp at hop
    · exact Or.inr (Or.inr (Or.inr (Or.inr (Or.inl ⟨_, hop⟩))))
    · simp at hop
      exact Or.inr (Or.inr (Or.inr (Or.inr (Or.inr (Or.inl ⟨_, hop⟩)))))

theorem nodeOps_state (st : RState) (name : String) :
    (nodeOps st name).1.edep_count = st.edep_count := by
  simp only [nodeOps]
  by_cases ht : pyContains name '-' <;> simp [ht]

theorem processRow_ops_mem (st : RState) (c : List String) (op : Op)
    (hop : op ∈ (processRow st c).2.1) :
    op ∈ (nodeOps st (c.getD 0 "")).2 ∨
    op ∈ (decodeGroup (c.getD 0 "") "UD/FEATS" (c.getD 5 "")).1 ∨
    op ∈ (decodeGroup (c.getD 0 "") "UD/MISC" (c.getD 9 "")).1 ∨
    op ∈ decodeCols (c.getD 0 "") c ∨
    op ∈ (decodeDeps (c.getD 0 "") st.edep_count
            (pySplit '|' (c.getD 8 ""))).2.1 := by
  simp only [processRow] at hop
  rw [nodeOps_state] at hop
  cases h1 : (decodeGroup (c.getD 0 "") "UD/FEATS" (c.getD 5 "")).2 with
  | some e => rw [h1] at hop; simp only [List.mem_append] at hop; tauto
  | none =>
    rw [h1] at hop
    cases h2 : (decodeGroup (c.getD 0 "") "UD/MISC" (c.getD 9 "")).2 with
    | some e => rw [h2] at hop; simp only [List.mem_append] at hop; tauto
    | none =>
      rw [h2] at hop
      by_cases h8 : c.getD 8 "" = "_"
      · rw [if_pos h8] at hop; simp only [List.mem_append] at hop; tauto
      · rw [if_neg h8] at hop; simp only [List.mem_append] at hop; tauto

theorem processRow_ops_eq (st : RState) (c : List String)
    (hclean : errIsInvalidPair ((processRow st c).2.2) = false) :
    (processRow st c).2.1 =
      (nodeOps st (c.getD 0 "")).2 ++
      (decodeGroup (c.getD 0 "") "UD/FEATS" (c.getD 5 "")).1 ++
      (decodeGroup (c.getD 0 "") "UD/MISC" (c.getD 9 "")).1 ++
      decodeCols (c.getD 0 "") c ++
      (if c.getD 8 "" = "_" then []
       else (decodeDeps (c.getD 0 "") st.edep_count
               (pySplit '|' (c.getD 8 ""))).2.1) := by
  simp only [processRow] at hclean ⊢
  rw [nodeOps_state] at hclean ⊢
  cases h1 : (decodeGroup (c.getD 0 "") "UD/FEATS" (c.getD 5 "")).2 with
  | some e =>
    exfalso
    have hshape := decodeGroup_err (c.getD 0 "") "UD/FEATS" (c.getD 5 "")
    rw [h1] at hshape
    cases hf : firstBadPair (c.getD 5 "") with
    | none => rw [hf] at hshape; simp at hshape
    | some p =>
      rw [hf] at hshape
      simp at hshape
      rw [h1] at hclean
      simp [hshape, errIsInvalidPair, errPair] at hclean
  | none =>
    cases h2 : (decodeGroup (c.getD 0 "") "UD/MISC" (c.getD 9 "")).2 with
    | some e =>
      exfalso
      have hshape := decodeGroup_err (c.getD 0 "") "UD/MISC" (c.getD 9 "")
      rw [h2] at hshape
      cases hf : firstBadPair (c.getD 9 "") with
      | none => rw [hf] at hshape; simp at hshape
      | some p =>
        rw [hf] at hshape
        simp at hshape
        rw [h1, h2] at hclean
        simp [hshape, errIsInvalidPair, errPair] at hclean
    | none =>
      by_cases h8 : c.getD 8 "" = "_"
      · rw [if_pos h8, if_pos h8]; try simp
      · rw [if_neg h8, if_neg h8]; try simp

theorem processRow_err_shape (st : RState) (c : List String) (e : PyError)
    (he : (processRow st c).2.2 = some e) :
    (∃ p, e = .invalidPair p) ∨ (∃ p, e = .invalidDep p) ∨ e = .nameError "h" := by
  simp only [processRow] at he
  rw [nodeOps_state] at he
  cases h1 : (decodeGroup (c.getD 0 "") "UD/FEATS" (c.getD 5 "")).2 with
  | some e1 =>
    rw [h1] at he
    simp at he
    have hshape := decodeGroup_err (c.getD 0 "") "UD/FEATS" (c.getD 5 "")
    rw [h1] at hshape
    cases hf : firstBadPair (c.getD 5 "") with
    | none => rw [hf] at hshape; simp at hshape
    | some p =>
      rw [hf] at hshape; simp at hshape
      exact Or.inl ⟨p, by rw [← he, hshape]⟩
  | none =>
    rw [h1] at he
    cases h2 : (decodeGroup (c.getD 0 "") "UD/MISC" (c.getD 9 "")).2 with
    | some e2 =>
      rw [h2] at he
      simp at he
      have hshape := decodeGroup_err (c.getD 0 "") "UD/MISC" (c.getD 9 "")
      rw [h2] at hshape
      cases hf : firstBadPair (c.getD 9 "") with
      | none => rw [hf] at hshape; simp at hshape
      | some p =>
        rw [hf] at hshape; simp at hshape
        exact Or.inl ⟨p, by rw [← he, hshape]⟩
    | none =>
      rw [h2] at he
      by_cases h8 : c.getD 8 "" = "_"
      · rw [if_pos h8] at he; simp at he
      · rw [if_neg h8] at he
        simp at he
        exact Or.inr (decodeDeps_err_shape _ _ _ e he)

theorem processLine_annot (st : RState) (line : String)
    (h1 : line ≠ "") (h2 : line.data.headD ' ' ≠ '#')
    (h3 : (pySplit '\t' (pyStrip line)).length = 10) :
    processLine st line = processRow st (pySplit '\t' (pyStrip line)) := by
  simp only [processLine, if_neg h1, if_neg h2]
  rw [if_neg (by omega : ¬(pySplit '\t' (pyStrip line)).length ≠ 10)]

theorem processLine_badcols (st : RState) (line : String)
    (h1 : line ≠ "") (h2 : line.data.headD ' ' ≠ '#')
    (h3 : (pySplit '\t' (pyStrip line)).length ≠ 10) :
    processLine st line = (st, [], some (.columnCount (pySplit '\t' (pyStrip line)).length)) := by
  simp only [processLine, if_neg h1, if_neg h2]
  rw [if_pos h3]

theorem processRow_groups_ok (st : RState) (c : List String)
    (hclean : errIsInvalidPair ((processRow st c).2.2) = false) :
    (decodeGroup (c.getD 0 "") "UD/FEATS" (c.getD 5 "")).2 = none ∧
    (decodeGroup (c.getD 0 "") "UD/MISC" (c.getD 9 "")).2 = none := by
  simp only [processRow] at hclean
  rw [nodeOps_state] at hclean
  cases h1 : (decodeGroup (c.getD 0 "") "UD/FEATS" (c.getD 5 "")).2 with
  | some e =>
    exfalso
    have hshape := decodeGroup_err (c.getD 0 "") "UD/FEATS" (c.getD 5 "")
    rw [h1] at hshape
    cases hf : firstBadPair (c.getD 5 "") with
    | none => rw [hf] at hshape; simp at hshape
    | some p =>
      rw [hf] at hshape
      simp at hshape
      rw [h1] at hclean
      simp [hshape, errIsInvalidPair, errPair] at hclean
  | none =>
    refine ⟨rfl, ?_⟩
    cases h2 : (decodeGroup (c.getD 0 "") "UD/MISC" (c.getD 9 "")).2 with
    | some e =>
      exfalso
      have hshape := decodeGroup_err (c.getD 0 "") "UD/MISC" (c.getD 9 "")
      rw [h2] at hshape
      cases hf : firstBadPair (c.getD 9 "") with
      | none => rw [hf] at hshape; simp at hshape
      | some p =>
        rw [hf] at hshape
        simp at hshape
        rw [h1, h2] at hclean
        simp [hshape, errIsInvalidPair, errPair] at hclean
    | none => rfl

theorem processRow_errPair (st : RState) (c : List String) :
    errPair (processRow st c).2.2 =
      (firstBadPair (c.getD 5 "")).or (firstBadPair (c.getD 9 "")) := by
  simp only [processRow]
  rw [nodeOps_state]
  have hshape5 := decodeGroup_err (c.getD 0 "") "UD/FEATS" (c.getD 5 "")
  have hshape9 := decodeGroup_err (c.getD 0 "") "UD/MISC" (c.getD 9 "")
  cases h1 : (decodeGroup (c.getD 0 "") "UD/FEATS" (c.getD 5 "")).2 with
  | some e =>
    rw [h1] at hshape5
    cases hf : firstBadPair (c.getD 5 "") with
    | none => rw [hf] at hshape5; simp at hshape5
    | some p =>
      rw [hf] at hshape5
      simp at hshape5
      simp [hshape5, errPair, Option.or]
  | none =>
    rw [h1] at hshape5
    cases hf : firstBadPair (c.getD 5 "") with
    | some p => rw [hf] at hshape5; simp at hshape5
    | none =>
      simp only [Option.or]
      cases h2 : (decodeGroup (c.getD 0 "") "UD/MISC" (c.getD 9 "")).2 with
      | some e =>
        rw [h2] at hshape9
        cases hf9 : firstBadPair (c.getD 9 "") with
        | none => rw [hf9] at hshape9; simp at hshape9
        | some p =>
          rw [hf9] at hshape9
          simp at hshape9
          simp [hshape9, errPair]
      | none =>
        rw [h2] at hshape9
        cases hf9 : firstBadPair (c.getD 9 "") with
        | some p => rw [hf9] at hshape9; simp at hshape9
        | none =>
          by_cases h8 : c.getD 8 "" = "_"
          · rw [if_pos h8]; simp [errPair]
          · rw [if_neg h8]
            cases hd : (decodeDeps (c.getD 0 "") st.edep_count
                (pySplit '|' (c.getD 8 ""))).2.2 with
            | none => simp [hd, errPair]
            | some e =>
              rcases decodeDeps_err_shape _ _ _ e hd with ⟨p, hp⟩ | hp <;>
                simp [hd, hp, errPair]

theorem decodeCols_shape (name : String) (c : List String) :
    ∀ op ∈ decodeCols name c, ∃ f ty v, op = .setFeature name "UD" f ty v := by
  intro op hop
  simp only [decodeCols, List.mem_append] at hop
  rcases hop with ((((hm | hm) | hm) | hm) | hm) | hm
  · obtain ⟨-, h'⟩ := (colOp_mem _ _ _ op).1 hm; exact ⟨_, _, _, h'⟩
  · obtain ⟨-, h'⟩ := (colOp_mem _ _ _ op).1 hm; exact ⟨_, _, _, h'⟩
  · obtain ⟨-, h'⟩ := (colOp_mem _ _ _ op).1 hm; exact ⟨_, _, _, h'⟩
  · obtain ⟨-, h'⟩ := (colOp_mem _ _ _ op).1 hm; exact ⟨_, _, _, h'⟩
  · obtain ⟨-, -, h'⟩ := (headOp_mem _ _ op).1 hm; exact ⟨_, _, _, h'⟩
  · obtain ⟨-, h'⟩ := (colOp_mem _ _ _ op).1 hm; exact ⟨_, _, _, h'⟩

theorem processRow_base_mem (st : RState) (c : List String) (op : Op)
    (hop : op ∈ (nodeOps st (c.getD 0 "")).2) : op ∈ (processRow st c).2.1 := by
  simp only [processRow]
  rw [nodeOps_state]
  cases h1 : (decodeGroup (c.getD 0 "") "UD/FEATS" (c.getD 5 "")).2 with
  | some e => simp only [List.mem_append]; tauto
  | none =>
    cases h2 : (decodeGroup (c.getD 0 "") "UD/MISC" (c.getD 9 "")).2 with
    | some e => simp only [List.mem_append]; tauto
    | none =>
      by_cases h8 : c.getD 8 "" = "_"
      · rw [if_pos h8]; simp only [List.mem_append]; tauto
      · rw [if_neg h8]; simp only [List.mem_append]; tauto

theorem nodeOps_setType_token (st : RState) (name : String)
    (ht : pyContains name '-' = true) :
    Op.setType name "token" ∈ (nodeOps st name).2 := by
  simp [nodeOps, ht]

theorem nodeOps_addRel (st : RState) (name s t : String) :
    Op.addRelation s t ∈ (nodeOps st name).2 ↔
      pyContains name '-' = true ∧ Op.addRelation s t ∈ relOps name := by
  simp only [nodeOps]
  by_cases ht : pyContains name '-' <;> simp [ht]

theorem mem_range'_iff_le (a b ch : Nat) :
    ch ∈ List.range' a (b + 1 - a) ↔ a ≤ ch ∧ ch ≤ b := by
  rw [List.mem_range']
  constructor
  · rintro ⟨i, hi, rfl⟩; omega
  · rintro ⟨hle, hge⟩; exact ⟨ch - a, by omega, by omega⟩

/-! ## Lemmas about the encoder -/

set_option maxHeartbeats 1000000 in
theorem procItem_row_keep (acc : RowAcc) (kv : FKey × Value) (j : Nat)
    (hj : j = 0 ∨ j = 6) :
    ((procItem acc kv).row).getD j "" = acc.row.getD j "" ∧
    ((procItem acc kv).row).length = acc.row.length := by
  simp only [procItem]
  rcases hj with rfl | rfl <;>
    split_ifs <;>
      simp [List.getD_eq_getElem?_getD, List.getElem?_set]

theorem foldl_procItem_keep (fs : Feats) (acc : RowAcc) (j : Nat)
    (hj : j = 0 ∨ j = 6) :
    ((fs.foldl procItem acc).row).getD j "" = acc.row.getD j "" ∧
    ((fs.foldl procItem acc).row).length = acc.row.length := by
  induction fs generalizing acc with
  | nil => exact ⟨rfl, rfl⟩
  | cons kv rest ih =>
    rw [List.foldl_cons]
    obtain ⟨h1, h2⟩ := ih (procItem acc kv)
    obtain ⟨h3, h4⟩ := procItem_row_keep acc kv j hj
    exact ⟨h1.trans h3, h2.trans h4⟩

theorem buildRow_col0 (widx : String) (wfeats : Feats) :
    ((buildRow widx wfeats).1).getD 0 "" = widx := by
  simp only [buildRow]
  have hk := foldl_procItem_keep wfeats ⟨widx :: List.replicate 9 "_", [], [], []⟩ 0 (Or.inl rfl)
  split_ifs <;>
    simp [List.getD_eq_getElem?_getD, List.getElem?_set] <;>
    simpa [List.getD_eq_getElem?_getD] using hk.1

theorem buildRow_col6 (widx : String) (wfeats : Feats) :
    ((buildRow widx wfeats).1).getD 6 "" = "_" := by
  simp only [buildRow]
  have hk := foldl_procItem_keep wfeats ⟨widx :: List.replicate 9 "_", [], [], []⟩ 6 (Or.inr rfl)
  split_ifs <;>
    simp [List.getD_eq_getElem?_getD, List.getElem?_set] <;>
    simpa [List.getD_eq_getElem?_getD] using hk.1

theorem buildRow_length (widx : String) (wfeats : Feats) :
    ((buildRow widx wfeats).1).length = 10 := by
  simp only [buildRow]
  have hk := foldl_procItem_keep wfeats ⟨widx :: List.replicate 9 "_", [], [], []⟩ 0 (Or.inl rfl)
  split_ifs <;> simp <;> simpa using hk.2

theorem wordStep_words (acc : SentAcc) (w : String × Feats) :
    (wordStep acc w).words = acc.words ++
      [(buildRow (renderPos acc.idx1 acc.idx2 (isNullOf w.2)).2.2 w.2).1] := rfl

theorem foldl_wordStep_prefix (ws : List (String × Feats)) (acc : SentAcc) (i : Nat)
    (hi : i < acc.words.length) :
    ((ws.foldl wordStep acc).words).getD i [] = acc.words.getD i [] := by
  induction ws generalizing acc with
  | nil => rfl
  | cons w rest ih =>
    rw [List.foldl_cons]
    have h1 : (wordStep acc w).words.getD i [] = acc.words.getD i [] := by
      rw [wordStep_words, List.getD_eq_getElem?_getD, List.getD_eq_getElem?_getD,
          List.getElem?_append]
      rw [if_pos hi]
    rw [ih (wordStep acc w) (by rw [wordStep_words]; simp; omega), h1]

theorem foldl_wordStep_rows_shape (ws : List (String × Feats)) (acc : SentAcc)
    (hacc : ∀ row ∈ acc.words, row.getD 6 "" = "_" ∧ row.length = 10) :
    ∀ row ∈ ((ws.foldl wordStep acc)).words, row.getD 6 "" = "_" ∧ row.length = 10 := by
  induction ws generalizing acc with
  | nil => exact hacc
  | cons w rest ih =>
    rw [List.foldl_cons]
    refine ih (wordStep acc w) ?_
    intro row hrow
    rw [wordStep_words] at hrow
    rcases List.mem_append.1 hrow with hrow | hrow
    · exact hacc row hrow
    · rcases List.mem_singleton.1 hrow with rfl
      exact ⟨buildRow_col6 _ _, buildRow_length _ _⟩

theorem foldl_wordStep_heads_lt (ws : List (String × Feats)) (acc : SentAcc)
    (hacc : ∀ p ∈ acc.heads, p.1 < acc.words.length) :
    ∀ p ∈ ((ws.foldl wordStep acc)).heads, p.1 < (ws.foldl wordStep acc).words.length := by
  induction ws generalizing acc with
  | nil => exact hacc
  | cons w rest ih =>
    rw [List.foldl_cons]
    refine ih (wordStep acc w) ?_
    intro p hp
    have hlen : (wordStep acc w).words.length = acc.words.length + 1 := by
      rw [wordStep_words]; simp
    rw [hlen]
    rcases List.mem_append.1 hp with hp | hp
    · exact Nat.lt_succ_of_lt (hacc p hp)
    · obtain ⟨v, -, hv⟩ := List.mem_map.1 hp
      rw [← hv]
      exact Nat.lt_succ_self _

theorem wordPass_rows_shape (ws : List (String × Feats)) :
    ∀ row ∈ (wordPass ws).words, row.getD 6 "" = "_" ∧ row.length = 10 :=
  foldl_wordStep_rows_shape ws ⟨[], [], 0, 0, []⟩ (by simp)

theorem wordPass_heads_lt (ws : List (String × Feats)) :
    ∀ p ∈ (wordPass ws).heads, p.1 < (wordPass ws).words.length :=
  foldl_wordStep_heads_lt ws ⟨[], [], 0, 0, []⟩ (by simp)

theorem getD_set_row (rows : List (List String)) (i' i : Nat) (r' : List String) :
    ((rows.set i' r').getD i []) =
      if i' = i ∧ i < rows.length then r' else rows.getD i [] := by
  by_cases h1 : i' = i
  · subst h1
    by_cases h2 : i' < rows.length
    · simp [List.getD_eq_getElem?_getD, List.getElem?_set, h2]
    · rw [if_neg (by tauto), List.set_eq_of_length_le (by omega)]
  · rw [if_neg (by tauto)]
    simp [List.getD_eq_getElem?_getD, List.getElem?_set, h1]

theorem resolveHeads_length (m : List (String × String)) (rows : List (List String))
    (hs : List (Nat × Value)) :
    (resolveHeads m rows hs).length = rows.length := by
  induction hs generalizing rows with
  | nil => rfl
  | cons e rest ih =>
    obtain ⟨i, h⟩ := e
    cases h with
    | str s =>
      cases hd : dictGet m s with
      | none => simpa [resolveHeads, hd] using ih rows
      | some widx =>
        simp only [resolveHeads, hd]
        rw [ih]
        simp
    | int n => simpa [resolveHeads] using ih rows
    | bool b => simpa [resolveHeads] using ih rows
    | bytes b => simpa [resolveHeads] using ih rows

theorem resolveHeads_keep (m : List (String × String)) (hs : List (Nat × Value))
    (rows : List (List String)) (i j : Nat) (hj : j ≠ 6) :
    ((resolveHeads m rows hs).getD i []).getD j "" = (rows.getD i []).getD j "" := by
  induction hs generalizing rows with
  | nil => rfl
  | cons e rest ih =>
    obtain ⟨i', h⟩ := e
    cases h with
    | str s =>
      cases hd : dictGet m s with
      | none => simpa [resolveHeads, hd] using ih rows
      | some widx =>
        simp only [resolveHeads, hd]
        rw [ih]
        rw [getD_set_row]
        by_cases hc : i' = i ∧ i < rows.length
        · rw [if_pos hc]
          rw [List.getD_eq_getElem?_getD ((rows.getD i' []).set 6 widx),
              List.getElem?_set, if_neg (by omega), ← List.getD_eq_getElem?_getD]
          rw [hc.1]
        · rw [if_neg hc]
    | int n => simpa [resolveHeads] using ih rows
    | bool b => simpa [resolveHeads] using ih rows
    | bytes b => simpa [resolveHeads] using ih rows

theorem rootFixup_getD (rows : List (List String)) (i : Nat) (hi : i < rows.length) :
    (rootFixup rows).getD i [] =
      (if (rows.getD i []).getD 6 "" = "_" ∧ (rows.getD i []).getD 7 "" = "root"
       then (rows.getD i []).set 6 "0" else rows.getD i []) := by
  unfold rootFixup
  rw [List.getD_eq_getElem?_getD, List.getElem?_map]
  cases hr : rows[i]? with
  | none => rw [List.getElem?_eq_getElem hi] at hr; cases hr
  | some row =>
    have : rows.getD i [] = row := by rw [List.getD_eq_getElem?_getD, hr]; rfl
    rw [this]
    rfl

theorem rootFixup_length (rows : List (List String)) :
    (rootFixup rows).length = rows.length := by
  unfold rootFixup
  simp

theorem col0_writeSentence (ws : List (String × Feats)) (i : Nat) :
    ((writeSentence ws).getD i []).getD 0 "" =
      (((wordPass ws).words).getD i []).getD 0 "" := by
  unfold writeSentence
  by_cases hi : i < (wordPass ws).words.length
  · rw [rootFixup_getD _ i (by rw [resolveHeads_length]; exact hi)]
    split_ifs with hc
    · rw [List.getD_eq_getElem?_getD (((resolveHeads _ _ _).getD i []).set 6 "0"),
          List.getElem?_set, if_neg (by omega), ← List.getD_eq_getElem?_getD]
      exact resolveHeads_keep _ _ _ i 0 (by omega)
    · exact resolveHeads_keep _ _ _ i 0 (by omega)
  · rw [List.getD_eq_getElem?_getD ((rootFixup _)), List.getElem?_eq_none
        (by rw [rootFixup_length, resolveHeads_length]; omega)]
    rw [List.getD_eq_getElem?_getD ((wordPass ws).words), List.getElem?_eq_none (by omega)]

/-- The resolved head entry `(i, h)` writes the looked-up position into
column 6 of row `i`, and no other entry for `i` exists (`Nodup` on the
recorded row indices), so it survives to the end of the resolution. -/
theorem resolveHeads_entry (m : List (String × String)) (hs : List (Nat × Value))
    (rows : List (List String)) (i : Nat) (s p : String)
    (hmem : (i, Value.str s) ∈ hs) (hnd : (hs.map Prod.fst).Nodup)
    (hget : dictGet m s = some p) (hi : i < rows.length)
    (hlen : (rows.getD i []).length = 10) :
    ((resolveHeads m rows hs).getD i []).getD 6 "" = p := by
  induction hs generalizing rows with
  | nil => cases hmem
  | cons e rest ih =>
    obtain ⟨i', h⟩ := e
    rw [List.map_cons, List.nodup_cons] at hnd
    rcases List.mem_cons.1 hmem with heq | hmem'
    · injection heq with e1 e2
      subst e1
      subst e2
      simp only [resolveHeads, hget]
      have hnd1 : i ∉ rest.map Prod.fst := hnd.1
      have hrest : ∀ q ∈ rest, q.1 ≠ i := by
        intro q hq hqe
        exact hnd1 (hqe ▸ List.mem_map_of_mem Prod.fst hq)
      have hkeep : ∀ (rows' : List (List String)) (rest' : List (Nat × Value)),
          (∀ q ∈ rest', q.1 ≠ i) →
          ((resolveHeads m rows' rest').getD i []) = rows'.getD i [] := by
        intro rows' rest' hne
        induction rest' generalizing rows' with
        | nil => rfl
        | cons e' rest'' ih' =>
          obtain ⟨j, h'⟩ := e'
          have hji : j ≠ i := hne (j, h') (List.mem_cons_self _ _)
          have hne' : ∀ q ∈ rest'', q.1 ≠ i :=
            fun q hq => hne q (List.mem_cons_of_mem _ hq)
          cases h' with
          | str s' =>
            cases hd : dictGet m s' with
            | none => simpa [resolveHeads, hd] using ih' rows' hne'
            | some w' =>
              simp only [resolveHeads, hd]
              rw [ih' _ hne', getD_set_row, if_neg (by tauto)]
          | int n => simpa [resolveHeads] using ih' rows' hne'
          | bool b => simpa [resolveHeads] using ih' rows' hne'
          | bytes b => simpa [resolveHeads] using ih' rows' hne'
      rw [hkeep _ rest hrest, getD_set_row, if_pos ⟨rfl, hi⟩,
          List.getD_eq_getElem?_getD, List.getElem?_set_self (by omega)]
      rfl
    · cases h with
      | str s' =>
        cases hd : dictGet m s' with
        | none =>
          simp only [resolveHeads, hd]
          exact ih rows hmem' hnd.2 hi hlen
        | some w' =>
          simp only [resolveHeads, hd]
          have hmm : i ∈ rest.map Prod.fst := List.mem_map_of_mem Prod.fst hmem'
          have hii : i' ≠ i := by
            intro hie
            exact hnd.1 (by rw [hie]; exact hmm)
          refine ih _ hmem' hnd.2 (by rw [List.length_set]; exact hi) ?_
          rw [getD_set_row, if_neg (by tauto)]
          exact hlen
      | int n => simpa only [resolveHeads] using ih rows hmem' hnd.2 hi hlen
      | bool b => simpa only [resolveHeads] using ih rows hmem' hnd.2 hi hlen
      | bytes b => simpa only [resolveHeads] using ih rows hmem' hnd.2 hi hlen

/-- When every deferred entry for row `i` fails to resolve (a non-string
value, or an id absent from `id2idx`), column 6 of row `i` is untouched
by the resolution pass. -/
theorem resolveHeads_unresolved (m : List (String × String)) (hs : List (Nat × Value))
    (rows : List (List String)) (i : Nat)
    (hfail : ∀ v, (i, v) ∈ hs → ∀ s, v = Value.str s → dictGet m s = none) :
    ((resolveHeads m rows hs).getD i []) = rows.getD i [] := by
  induction hs generalizing rows with
  | nil => rfl
  | cons e rest ih =>
    obtain ⟨i', h⟩ := e
    have hrest : ∀ v, (i, v) ∈ rest → ∀ s, v = Value.str s → dictGet m s = none :=
      fun v hv => hfail v (List.mem_cons_of_mem _ hv)
    cases h with
    | str s' =>
      cases hd : dictGet m s' with
      | none => simpa [resolveHeads, hd] using ih rows hrest
      | some w' =>
        simp only [resolveHeads, hd]
        have hii : i' ≠ i := by
          intro hie
          subst hie
          rw [hfail (Value.str s') (List.mem_cons_self _ _) s' rfl] at hd
          cases hd
        rw [ih _ hrest, getD_set_row, if_neg (by tauto)]
    | int n => simpa [resolveHeads] using ih rows hrest
    | bool b => simpa [resolveHeads] using ih rows hrest
    | bytes b => simpa [resolveHeads] using ih rows hrest

/-! ## Claims -/

/-- C3: For every non-comment, non-blank input line, the decoder raises
the column-count decode error if and only if the stripped line does not
split into exactly 10 tab-separated columns; when raised it carries the
actual count, and its message reports that count. -/
theorem C3 (st : RState) (line : String)
    (h1 : line ≠ "") (h2 : line.data.headD ' ' ≠ '#') :
    ((∃ m, (processLine st line).2.2 = some (.columnCount m)) ↔
      (pySplit '\t' (pyStrip line)).length ≠ 10)
    ∧ ((pySplit '\t' (pyStrip line)).length ≠ 10 →
        (processLine st line).2.2 =
          some (.columnCount (pySplit '\t' (pyStrip line)).length))
    ∧ (PyError.columnCount (pySplit '\t' (pyStrip line)).length).message =
        "Expected 10 columns, found " ++
          toString (pySplit '\t' (pyStrip line)).length ++ "." := by
  by_cases h3 : (pySplit '\t' (pyStrip line)).length = 10
  · rw [processLine_annot st line h1 h2 h3]
    refine ⟨⟨?_, fun hne => absurd h3 hne⟩, fun hne => absurd h3 hne, rfl⟩
    rintro ⟨m, hm⟩
    exfalso
    rcases processRow_err_shape st _ _ hm with ⟨p, hp⟩ | ⟨p, hp⟩ | hp <;> simp at hp
  · rw [processLine_badcols st line h1 h2 h3]
    exact ⟨⟨fun _ => h3, fun _ => ⟨_, rfl⟩⟩, fun _ => rfl, rfl⟩

/-- C3 witness: a 9-column row raises the column-count error naming 9. -/
theorem C3_witness :
    (processLine RState.reset "a\tb\tc\td\te\tf\tg\th\ti").2.2 =
      some (.columnCount 9) := by
  have h := (C3 RState.reset "a\tb\tc\td\te\tf\tg\th\ti"
    (by decide) (by decide)).2.1 (by decide)
  rw [h]
  decide

/-- C1: the claim says each `DEPS` pair yields a `UD-edep` node carrying
reference features `parent` (the split-out head id) and `child` and a
string feature `deprel`.  The code instead evaluates the unbound variable
`h` at the `parent` `set_feature` call (conllu.py line 121): at the
failing input below, decode performs only the node's own operations plus
the edep node's type and parent declarations, sets none of the three
features, and aborts with a `NameError` — which is not even a
`ReaderError`. -/
theorem C1_eval :
    processLine RState.reset "3\tx\t_\t_\t_\t_\t_\t_\t2:nsubj\t_" =
      (⟨1, 0, 1⟩,
       [.setType "3" "word", .setParent "3" "sentence",
        .setFeature "3" "UD" "id" .str (.str "3"),
        .setFeature "3" "meta" "index" .int (.int 1),
        .setFeature "3" "UD" "null" .bool (.bool false),
        .setFeature "3" "UD" "form" .str (.str "x"),
        .setType "\t1" "UD-edep", .setParent "\t1" "sentence"],
       some (.nameError "h")) := by decide

/-- C2 counterexample: the claim's invariant quantifies over all decoder
operations, but a comment line `# head = 0` decodes without error and
stores a tier-`UD` feature named `head` with value `'0'` (type string)
on the sentence node. -/
theorem C2_counterexample :
    (processLine RState.reset "# head = 0").2.2 = none ∧
    Op.setFeature "sentence" "UD" "head" FType.str (Value.str "0") ∈
      (processLine RState.reset "# head = 0").2.1 := by decide

/-- C2 (amended): restricted to annotation rows, no operation ever sets
a tier-`UD` `head` feature with value `'0'` (or `'_'`): any such feature
is reference-typed and holds the raw column-6 id, which is neither `'0'`
nor `'_'`; and on a 10-column row whose `FEATS`/`MISC` decode raises no
error, the `head` reference feature is present iff column 6 is neither
`'_'` nor `'0'`. -/
theorem C2_amended (st : RState) (line : String)
    (h1 : line ≠ "") (h2 : line.data.headD ' ' ≠ '#') :
    (∀ op ∈ (processLine st line).2.1, ∀ node ty v,
        op = Op.setFeature node "UD" "head" ty v →
        ty = FType.ref ∧ ∃ s, v = Value.str s ∧ s ≠ "0" ∧ s ≠ "_")
    ∧ ((pySplit '\t' (pyStrip line)).length = 10 →
        errIsInvalidPair (processLine st line).2.2 = false →
        (Op.setFeature ((pySplit '\t' (pyStrip line)).getD 0 "") "UD" "head" FType.ref
            (Value.str ((pySplit '\t' (pyStrip line)).getD 6 "")) ∈
              (processLine st line).2.1 ↔
          (pySplit '\t' (pyStrip line)).getD 6 "" ≠ "_" ∧
          (pySplit '\t' (pyStrip line)).getD 6 "" ≠ "0")) := by
  constructor
  · by_cases h3 : (pySplit '\t' (pyStrip line)).length = 10
    · rw [processLine_annot st line h1 h2 h3]
      intro op hop node ty v heq
      rcases processRow_ops_mem st _ op hop with hm | hm | hm | hm | hm
      · rcases nodeOps_shape st _ op hm with
          h' | h' | h' | h' | ⟨n, h'⟩ | ⟨b, h'⟩ | ⟨s, h'⟩ <;> rw [h'] at heq <;> simp at heq
      · obtain ⟨k, ty', v', h'⟩ := decodeGroup_ops_shape _ _ _ op hm
        rw [h'] at heq; simp at heq
      · obtain ⟨k, ty', v', h'⟩ := decodeGroup_ops_shape _ _ _ op hm
        rw [h'] at heq; simp at heq
      · simp only [decodeCols, List.mem_append] at hm
        rcases hm with ((((hm | hm) | hm) | hm) | hm) | hm
        · obtain ⟨-, h'⟩ := (colOp_mem _ _ _ op).1 hm; rw [h'] at heq; simp at heq
        · obtain ⟨-, h'⟩ := (colOp_mem _ _ _ op).1 hm; rw [h'] at heq; simp at heq
        · obtain ⟨-, h'⟩ := (colOp_mem _ _ _ op).1 hm; rw [h'] at heq; simp at heq
        · obtain ⟨-, h'⟩ := (colOp_mem _ _ _ op).1 hm; rw [h'] at heq; simp at heq
        · obtain ⟨hne1, hne0, h'⟩ := (headOp_mem _ _ op).1 hm
          rw [h'] at heq
          injection heq with e1 e2 e3 e4 e5
          exact ⟨e4.symm, _, e5.symm, hne0, hne1⟩
        · obtain ⟨-, h'⟩ := (colOp_mem _ _ _ op).1 hm; rw [h'] at heq; simp at heq
      · rcases decodeDeps_ops_shape _ _ _ op hm with h' | h' <;> rw [h'] at heq <;> simp at heq
    · rw [processLine_badcols st line h1 h2 h3]
      intro op hop
      simp at hop
  · intro h3 hclean
    rw [processLine_annot st line h1 h2 h3] at hclean ⊢
    rw [processRow_ops_eq st _ hclean]
    simp only [List.mem_append]
    constructor
    · rintro ((((hm | hm) | hm) | hm) | hm)
      · rcases nodeOps_shape st _ _ hm with
          h' | h' | h' | h' | ⟨n, h'⟩ | ⟨b, h'⟩ | ⟨s, h'⟩ <;> simp at h'
      · obtain ⟨k, ty', v', h'⟩ := decodeGroup_ops_shape _ _ _ _ hm
        simp at h'
      · obtain ⟨k, ty', v', h'⟩ := decodeGroup_ops_shape _ _ _ _ hm
        simp at h'
      · simp only [decodeCols, List.mem_append] at hm
        rcases hm with ((((hm | hm) | hm) | hm) | hm) | hm
        · obtain ⟨-, h'⟩ := (colOp_mem _ _ _ _).1 hm; simp at h'
        · obtain ⟨-, h'⟩ := (colOp_mem _ _ _ _).1 hm; simp at h'
        · obtain ⟨-, h'⟩ := (colOp_mem _ _ _ _).1 hm; simp at h'
        · obtain ⟨-, h'⟩ := (colOp_mem _ _ _ _).1 hm; simp at h'
        · obtain ⟨hne1, hne0, -⟩ := (headOp_mem _ _ _).1 hm
          exact ⟨hne1, hne0⟩
        · obtain ⟨-, h'⟩ := (colOp_mem _ _ _ _).1 hm; simp at h'
      · by_cases h8 : (pySplit '\t' (pyStrip line)).getD 8 "" = "_"
        · rw [if_pos h8] at hm; simp at hm
        · rw [if_neg h8] at hm
          rcases decodeDeps_ops_shape _ _ _ _ hm with h' | h' <;> simp at h'
    · rintro ⟨hne1, hne0⟩
      refine Or.inl (Or.inr ?_)
      simp only [decodeCols, List.mem_append]
      refine Or.inl (Or.inr ?_)
      exact (headOp_mem _ _ _).2 ⟨hne1, hne0, rfl⟩

/-- C2 witness: on `1␉The␉the␉DET␉_␉_␉2␉det␉_␉_` the `head` reference
feature with value `'2'` is stored. -/
theorem C2_witness :
    Op.setFeature ((pySplit '\t' (pyStrip "1\tThe\tthe\tDET\t_\t_\t2\tdet\t_\t_")).getD 0 "")
        "UD" "head" FType.ref
        (Value.str ((pySplit '\t' (pyStrip "1\tThe\tthe\tDET\t_\t_\t2\tdet\t_\t_")).getD 6 "")) ∈
      (processLine RState.reset "1\tThe\tthe\tDET\t_\t_\t2\tdet\t_\t_").2.1 :=
  ((C2_amended RState.reset "1\tThe\tthe\tDET\t_\t_\t2\tdet\t_\t_"
      (by decide) (by decide)).2 (by decide) (by decide)).mpr (by decide)

/-- C4 counterexample: the claim says every `FEATS` key becomes a string
feature in tier `UD/FEATS`, the `SpaceAfter` exception applying only in
`MISC`; but on a row whose `FEATS` column is `SpaceAfter=No` the decoder
stores `UD/FEATS:SpaceAfter` as a boolean (value false), not a string. -/
theorem C4_counterexample :
    Op.setFeature "1" "UD/FEATS" "SpaceAfter" FType.bool (Value.bool false) ∈
      (processLine RState.reset "1\tx\t_\t_\t_\tSpaceAfter=No\t_\t_\t_\t_").2.1 ∧
    (processLine RState.reset "1\tx\t_\t_\t_\tSpaceAfter=No\t_\t_\t_\t_").2.2 = none ∧
    (processLine RState.reset "1\tx\t_\t_\t_\tSpaceAfter=No\t_\t_\t_\t_").2.1 =
      [.setType "1" "word", .setParent "1" "sentence",
       .setFeature "1" "UD" "id" .str (.str "1"),
       .setFeature "1" "meta" "index" .int (.int 1),
       .setFeature "1" "UD" "null" .bool (.bool false),
       .setFeature "1" "UD/FEATS" "SpaceAfter" .bool (.bool false),
       .setFeature "1" "UD" "form" .str (.str "x")] := by decide

/-- C4 (amended): columns 5 (`FEATS`) and 9 (`MISC`) are decoded
identically — skip on `'_'`, split on `|`, split each pair on its first
`=`, the first pair lacking `=` (FEATS scanned before MISC) named by the
fatal decode error — and each key becomes a string feature in tier
`UD/FEATS` resp. `UD/MISC`, except that the key `SpaceAfter` in
*either* column is stored as a boolean that is true exactly when the raw
value is not `'No'`. -/
theorem C4_amended (st : RState) (line : String)
    (h1 : line ≠ "") (h2 : line.data.headD ' ' ≠ '#')
    (h3 : (pySplit '\t' (pyStrip line)).length = 10) :
    (errPair (processLine st line).2.2 =
       (firstBadPair ((pySplit '\t' (pyStrip line)).getD 5 "")).or
         (firstBadPair ((pySplit '\t' (pyStrip line)).getD 9 "")))
    ∧ (∀ n' g' raw, pairOp n' g' "SpaceAfter" raw =
         Op.setFeature n' g' "SpaceAfter" FType.bool (Value.bool (raw ≠ "No")))
    ∧ (∀ n' g' k raw, k ≠ "SpaceAfter" →
         pairOp n' g' k raw = Op.setFeature n' g' k FType.str (Value.str raw))
    ∧ (errIsInvalidPair (processLine st line).2.2 = false →
       ∀ g c₅, ((g = "UD/FEATS" ∧ c₅ = (pySplit '\t' (pyStrip line)).getD 5 "") ∨
                (g = "UD/MISC" ∧ c₅ = (pySplit '\t' (pyStrip line)).getD 9 "")) →
         ∀ k ty v,
           (Op.setFeature ((pySplit '\t' (pyStrip line)).getD 0 "") g k ty v ∈
               (processLine st line).2.1 ↔
             (c₅ ≠ "_" ∧ ∃ p ∈ pySplit '|' c₅, ∃ raw,
               splitFirst '=' p = some (k, raw) ∧
               Op.setFeature ((pySplit '\t' (pyStrip line)).getD 0 "") g k ty v =
                 pairOp ((pySplit '\t' (pyStrip line)).getD 0 "") g k raw))) := by
  rw [processLine_annot st line h1 h2 h3]
  refine ⟨processRow_errPair st _,
          fun n' g' raw => by simp [pairOp],
          fun n' g' k raw hk => by simp [pairOp, hk], ?_⟩
  intro hclean g c₅ hg k ty v
  obtain ⟨hfok, hmok⟩ := processRow_groups_ok st _ hclean
  rw [processRow_ops_eq st _ hclean]
  simp only [List.mem_append]
  rcases hg with ⟨rfl, rfl⟩ | ⟨rfl, rfl⟩
  · constructor
    · rintro ((((hm' | hm') | hm') | hm') | hm')
      · exfalso
        rcases nodeOps_shape st _ _ hm' with
          h' | h' | h' | h' | ⟨n, h'⟩ | ⟨b, h'⟩ | ⟨s', h'⟩ <;> simp at h'
      · obtain ⟨hne, p, hp, k0, raw, hsp, hop⟩ := (decodeGroup_mem _ _ _ hfok _).1 hm'
        obtain ⟨ty0, v0, hps⟩ := pairOp_shape ((pySplit '\t' (pyStrip line)).getD 0 "")
          "UD/FEATS" k0 raw
        have hk : k = k0 := by
          rw [hps] at hop
          injection hop
        subst hk
        exact ⟨hne, p, hp, raw, hsp, hop⟩
      · exfalso
        obtain ⟨k', ty', v', h'⟩ := decodeGroup_ops_shape _ _ _ _ hm'
        simp at h'
      · exfalso
        obtain ⟨f, ty', v', h'⟩ := decodeCols_shape _ _ _ hm'
        simp at h'
      · exfalso
        by_cases h8 : (pySplit '\t' (pyStrip line)).getD 8 "" = "_"
        · rw [if_pos h8] at hm'; simp at hm'
        · rw [if_neg h8] at hm'
          rcases decodeDeps_ops_shape _ _ _ _ hm' with h' | h' <;> simp at h'
    · rintro ⟨hne, p, hp, raw, hsp, hop⟩
      exact Or.inl (Or.inl (Or.inl (Or.inr
        ((decodeGroup_mem _ _ _ hfok _).2 ⟨hne, p, hp, k, raw, hsp, hop⟩))))
  · constructor
    · rintro ((((hm' | hm') | hm') | hm') | hm')
      · exfalso
        rcases nodeOps_shape st _ _ hm' with
          h' | h' | h' | h' | ⟨n, h'⟩ | ⟨b, h'⟩ | ⟨s', h'⟩ <;> simp at h'
      · exfalso
        obtain ⟨k', ty', v', h'⟩ := decodeGroup_ops_shape _ _ _ _ hm'
        simp at h'
      · obtain ⟨hne, p, hp, k0, raw, hsp, hop⟩ := (decodeGroup_mem _ _ _ hmok _).1 hm'
        obtain ⟨ty0, v0, hps⟩ := pairOp_shape ((pySplit '\t' (pyStrip line)).getD 0 "")
          "UD/MISC" k0 raw
        have hk : k = k0 := by
          rw [hps] at hop
          injection hop
        subst hk
        exact ⟨hne, p, hp, raw, hsp, hop⟩
      · exfalso
        obtain ⟨f, ty', v', h'⟩ := decodeCols_shape _ _ _ hm'
        simp at h'
      · exfalso
        by_cases h8 : (pySplit '\t' (pyStrip line)).getD 8 "" = "_"
        · rw [if_pos h8] at hm'; simp at hm'
        · rw [if_neg h8] at hm'
          rcases decodeDeps_ops_shape _ _ _ _ hm' with h' | h' <;> simp at h'
    · rintro ⟨hne, p, hp, raw, hsp, hop⟩
      exact Or.inl (Or.inl (Or.inr
        ((decodeGroup_mem _ _ _ hmok _).2 ⟨hne, p, hp, k, raw, hsp, hop⟩)))

/-- C4 witness: on a row with `FEATS` `Case=Nom` and `MISC`
`SpaceAfter=No`, the `Case` key is stored as a string feature in
`UD/FEATS` and the decode error is absent. -/
theorem C4_witness :
    Op.setFeature ((pySplit '\t' (pyStrip "1\tx\t_\t_\t_\tCase=Nom\t_\t_\t_\tSpaceAfter=No")).getD 0 "")
        "UD/FEATS" "Case" FType.str (Value.str "Nom") ∈
      (processLine RState.reset "1\tx\t_\t_\t_\tCase=Nom\t_\t_\t_\tSpaceAfter=No").2.1 :=
  (((C4_amended RState.reset "1\tx\t_\t_\t_\tCase=Nom\t_\t_\t_\tSpaceAfter=No"
      (by decide) (by decide) (by decide)).2.2.2 (by decide)
      "UD/FEATS" ((pySplit '\t' (pyStrip "1\tx\t_\t_\t_\tCase=Nom\t_\t_\t_\tSpaceAfter=No")).getD 5 "")
      (Or.inl ⟨rfl, rfl⟩) "Case" FType.str (Value.str "Nom")).mpr
    ⟨by decide, "Case=Nom", by decide, "Nom", by decide, by decide⟩)

/-- C5: on a 10-column row whose id contains `-`, the node is typed
`token`, and a containment relation `add_relation(str(ch), id)` exists
exactly for the integers `ch` of the inclusive range `[int(a), int(b)]`
when both halves `a`, `b` of the id split are numeric — in particular no
relation at all when either half is non-numeric. -/
theorem C5 (st : RState) (line : String)
    (h1 : line ≠ "") (h2 : line.data.headD ' ' ≠ '#')
    (h3 : (pySplit '\t' (pyStrip line)).length = 10)
    (htok : pyContains ((pySplit '\t' (pyStrip line)).getD 0 "") '-' = true) :
    Op.setType ((pySplit '\t' (pyStrip line)).getD 0 "") "token" ∈ (processLine st line).2.1
    ∧ (∀ s t, Op.addRelation s t ∈ (processLine st line).2.1 ↔
        (∃ ab, splitFirst '-' ((pySplit '\t' (pyStrip line)).getD 0 "") = some ab ∧
          (pyIsDigit ab.1 && pyIsDigit ab.2) = true ∧
          ∃ ch, digitsToNat ab.1 ≤ ch ∧ ch ≤ digitsToNat ab.2 ∧
            s = toString ch ∧ t = (pySplit '\t' (pyStrip line)).getD 0 "")) := by
  rw [processLine_annot st line h1 h2 h3]
  constructor
  · exact processRow_base_mem st _ _ (nodeOps_setType_token st _ htok)
  · intro s t
    constructor
    · intro hop
      rcases processRow_ops_mem st _ _ hop with hm | hm | hm | hm | hm
      · obtain ⟨-, hrel⟩ := (nodeOps_addRel st _ s t).1 hm
        obtain ⟨ab, hab, hd, ch, hch, heq⟩ := (relOps_mem _ _).1 hrel
        injection heq with e1 e2
        exact ⟨ab, hab, hd, ch, ((mem_range'_iff_le _ _ ch).1 hch).1,
               ((mem_range'_iff_le _ _ ch).1 hch).2, e1, e2⟩
      · obtain ⟨k, ty', v', h'⟩ := decodeGroup_ops_shape _ _ _ _ hm; simp at h'
      · obtain ⟨k, ty', v', h'⟩ := decodeGroup_ops_shape _ _ _ _ hm; simp at h'
      · obtain ⟨f, ty', v', h'⟩ := decodeCols_shape _ _ _ hm; simp at h'
      · rcases decodeDeps_ops_shape _ _ _ _ hm with h' | h' <;> simp at h'
    · rintro ⟨ab, hab, hd, ch, hle, hge, rfl, rfl⟩
      apply processRow_base_mem
      refine (nodeOps_addRel st _ _ _).2 ⟨htok, ?_⟩
      exact (relOps_mem _ _).2 ⟨ab, hab, hd, ch, (mem_range'_iff_le _ _ ch).2 ⟨hle, hge⟩, rfl⟩

/-- C5 witness: id `3-4` yields relations from word ids `3` and `4` to
the token, and id `a-b` yields no relation at all. -/
theorem C5_witness :
    Op.setType "3-4" "token" ∈
      (processLine RState.reset "3-4\tdel\t_\t_\t_\t_\t_\t_\t_\t_").2.1 ∧
    Op.addRelation "3" "3-4" ∈
      (processLine RState.reset "3-4\tdel\t_\t_\t_\t_\t_\t_\t_\t_").2.1 ∧
    Op.addRelation "4" "3-4" ∈
      (processLine RState.reset "3-4\tdel\t_\t_\t_\t_\t_\t_\t_\t_").2.1 ∧
    (∀ s t, Op.addRelation s t ∉
      (processLine RState.reset "a-b\tdel\t_\t_\t_\t_\t_\t_\t_\t_").2.1) := by
  have h34 := C5 RState.reset "3-4\tdel\t_\t_\t_\t_\t_\t_\t_\t_"
    (by decide) (by decide) (by decide) (by decide)
  have hab := C5 RState.reset "a-b\tdel\t_\t_\t_\t_\t_\t_\t_\t_"
    (by decide) (by decide) (by decide) (by decide)
  refine ⟨h34.1, (h34.2 "3" "3-4").mpr ⟨("3", "4"), by decide, by decide, 3,
            by decide, by decide, by decide, by decide⟩,
          (h34.2 "4" "3-4").mpr ⟨("3", "4"), by decide, by decide, 4,
            by decide, by decide, by decide, by decide⟩, ?_⟩
  intro s t hmem
  obtain ⟨ab, hab', hd, -⟩ := (hab.2 s t).1 hmem
  rw [(by decide : splitFirst '-'
    ((pySplit '\t' (pyStrip "a-b\tdel\t_\t_\t_\t_\t_\t_\t_\t_")).getD 0 "") =
      some ("a", "b"))] at hab'
  cases hab'
  exact absurd hd (by decide)

/-- C6: the encoder's printable positions are computed with a major
counter `idx1` and a minor counter `idx2`: appending a word whose `null`
test is true leaves `idx1`, increments `idx2`, and renders
`"<idx1>:<idx2>"`; appending one whose test is false increments `idx1`,
resets `idx2` to 0, and renders `"<idx1>"`.  Hence the scenario word
ids `1`, `1.1`, `1.2`, `2` render `1`, `1:1`, `1:2`, `2`. -/
theorem C6 :
    (∀ (ws : List (String × Feats)) (wid : String) (wfeats : Feats),
      (isNullOf wfeats = true →
        (wordPass (ws ++ [(wid, wfeats)])).idx1 = (wordPass ws).idx1 ∧
        (wordPass (ws ++ [(wid, wfeats)])).idx2 = (wordPass ws).idx2 + 1 ∧
        ((wordPass (ws ++ [(wid, wfeats)])).words.getD
            (wordPass ws).words.length []).getD 0 "" =
          toString (wordPass ws).idx1 ++ ":" ++ toString ((wordPass ws).idx2 + 1)) ∧
      (isNullOf wfeats = false →
        (wordPass (ws ++ [(wid, wfeats)])).idx1 = (wordPass ws).idx1 + 1 ∧
        (wordPass (ws ++ [(wid, wfeats)])).idx2 = 0 ∧
        ((wordPass (ws ++ [(wid, wfeats)])).words.getD
            (wordPass ws).words.length []).getD 0 "" =
          toString ((wordPass ws).idx1 + 1)))
    ∧ (writeSentence
        [("1", [(("UD", "null", FType.bool), Value.bool false)]),
         ("1.1", [(("UD", "null", FType.bool), Value.bool true)]),
         ("1.2", [(("UD", "null", FType.bool), Value.bool true)]),
         ("2", [(("UD", "null", FType.bool), Value.bool false)])]).map
        (fun r => r.getD 0 "") = ["1", "1:1", "1:2", "2"] := by
  constructor
  · intro ws wid wfeats
    have hstep : wordPass (ws ++ [(wid, wfeats)]) = wordStep (wordPass ws) (wid, wfeats) := by
      unfold wordPass
      rw [List.foldl_append]
      rfl
    constructor
    · intro hnull
      rw [hstep]
      simp only [wordStep, renderPos, hnull, if_true]
      refine ⟨trivial, trivial, ?_⟩
      simp only [List.getD_eq_getElem?_getD, List.getElem?_concat_length, Option.getD_some]
      simpa [List.getD_eq_getElem?_getD] using buildRow_col0
        (toString (wordPass ws).idx1 ++ ":" ++ toString ((wordPass ws).idx2 + 1)) wfeats
    · intro hnull
      rw [hstep]
      simp only [wordStep, renderPos, hnull, Bool.false_eq_true, if_false]
      refine ⟨trivial, trivial, ?_⟩
      simp only [List.getD_eq_getElem?_getD, List.getElem?_concat_length, Option.getD_some]
      simpa [List.getD_eq_getElem?_getD] using buildRow_col0
        (toString ((wordPass ws).idx1 + 1)) wfeats
  · decide

/-- C6 witness: a null word appended after one ordinary word renders at
position `1:1`. -/
theorem C6_witness :
    isNullOf [(("UD", "null", FType.bool), Value.bool true)] = true ∧
    ((wordPass ([("1", [(("UD", "null", FType.bool), Value.bool false)])] ++
        [("1.1", [(("UD", "null", FType.bool), Value.bool true)])])).words.getD
      (wordPass [("1", [(("UD", "null", FType.bool), Value.bool false)])]).words.length
        []).getD 0 "" = "1:1" := by
  have h := (C6.1 [("1", [(("UD", "null", FType.bool), Value.bool false)])] "1.1"
    [(("UD", "null", FType.bool), Value.bool true)]).1 (by decide)
  refine ⟨by decide, ?_⟩
  rw [h.2.2]
  decide

/-- C7: head columns are filled only after the word pass: a deferred
entry `(i, h)` whose stored head id resolves in `id2idx` writes the
rendered position into column 6 of row `i`; an unresolved entry leaves
column 6 at `'_'`, and afterwards a row whose head column is `'_'` and
whose deprel column is exactly `root` gets head `'0'` (otherwise `'_'`).
The `Nodup` hypothesis says each row records at most one head value, as
a store-delivered feature dict guarantees. -/
theorem C7 (ws : List (String × Feats))
    (hnd : ((wordPass ws).heads.map Prod.fst).Nodup) :
    (∀ i s p, (i, Value.str s) ∈ (wordPass ws).heads →
       dictGet (wordPass ws).id2idx s = some p → p ≠ "_" →
       ((writeSentence ws).getD i []).getD 6 "" = p)
    ∧ (∀ i, i < (wordPass ws).words.length →
       (∀ v, (i, v) ∈ (wordPass ws).heads →
          ∀ s, v = Value.str s → dictGet (wordPass ws).id2idx s = none) →
       ((writeSentence ws).getD i []).getD 6 "" =
         (if ((wordPass ws).words.getD i []).getD 7 "" = "root" then "0" else "_")) := by
  constructor
  · intro i s p hmem hget hp
    have hi : i < (wordPass ws).words.length := wordPass_heads_lt ws (i, .str s) hmem
    have hrow : (wordPass ws).words.getD i [] = (wordPass ws).words[i] := by
      rw [List.getD_eq_getElem?_getD, List.getElem?_eq_getElem hi]
      rfl
    have hlen : ((wordPass ws).words.getD i []).length = 10 := by
      rw [hrow]
      exact (wordPass_rows_shape ws _ (List.getElem_mem hi)).2
    unfold writeSentence
    have hres := resolveHeads_entry (wordPass ws).id2idx (wordPass ws).heads
      (wordPass ws).words i s p hmem hnd hget hi hlen
    rw [rootFixup_getD _ i (by rw [resolveHeads_length]; exact hi)]
    split_ifs with hc
    · exact absurd (hres.symm.trans hc.1) hp
    · exact hres
  · intro i hi hfail
    have hrow : (wordPass ws).words.getD i [] = (wordPass ws).words[i] := by
      rw [List.getD_eq_getElem?_getD, List.getElem?_eq_getElem hi]
      rfl
    have hcol6 : ((wordPass ws).words.getD i []).getD 6 "" = "_" := by
      rw [hrow]
      exact (wordPass_rows_shape ws _ (List.getElem_mem hi)).1
    have hlen : ((wordPass ws).words.getD i []).length = 10 := by
      rw [hrow]
      exact (wordPass_rows_shape ws _ (List.getElem_mem hi)).2
    unfold writeSentence
    have hres := resolveHeads_unresolved (wordPass ws).id2idx (wordPass ws).heads
      (wordPass ws).words i hfail
    rw [rootFixup_getD _ i (by rw [resolveHeads_length]; exact hi), hres]
    by_cases hroot : ((wordPass ws).words.getD i []).getD 7 "" = "root"
    · rw [if_pos ⟨hcol6, hroot⟩, if_pos hroot]
      rw [List.getD_eq_getElem?_getD, List.getElem?_set_self (by omega)]
      rfl
    · rw [if_neg (fun hcc => hroot hcc.2), if_neg hroot]
      exact hcol6

/-- The two-word scenario used as C7's witness: word `1` has a head
reference to word `2` with deprel `det`; word `2` has deprel `root` and
no stored head. -/
def sampleWords : List (String × Feats) :=
  [("1", [(("UD", "null", FType.bool), Value.bool false),
          (("UD", "head", FType.ref), Value.str "2"),
          (("UD", "deprel", FType.str), Value.str "det")]),
   ("2", [(("UD", "null", FType.bool), Value.bool false),
          (("UD", "deprel", FType.str), Value.str "root")])]

/-- C7 witness: in the two-word scenario the first row's head column
resolves to position `2`, and the second row (head unresolved, deprel
`root`) gets head `0`. -/
theorem C7_witness :
    ((writeSentence sampleWords).getD 0 []).getD 6 "" = "2" ∧
    ((writeSentence sampleWords).getD 1 []).getD 6 "" = "0" := by
  have h := C7 sampleWords (by decide)
  refine ⟨h.1 0 "2" "2" (by decide) (by decide) (by decide), ?_⟩
  have hb := h.2 1 (by decide) (fun v hv s hs => by
    rw [show (wordPass sampleWords).heads = [(0, Value.str "2")] from by decide] at hv
    simp at hv)
  rw [hb]
  decide

/-- C8: the `SpaceAfter` boolean round-trips.  Decode stores the pair
`SpaceAfter=v` as a boolean that is false exactly when `v` is `'No'`;
encode renders a stored boolean as `SpaceAfter=No` when false and
`SpaceAfter=Yes` when true; hence decoding `SpaceAfter=No` and
re-encoding yields `SpaceAfter=No`, and any other input value yields
`SpaceAfter=Yes`. -/
theorem C8 :
    (∀ name group raw, pairOp name group "SpaceAfter" raw =
       Op.setFeature name group "SpaceAfter" FType.bool (Value.bool (raw ≠ "No")))
    ∧ (∀ (wid : String) (b : Bool),
        ((writeSentence [(wid, [(("UD/MISC", "SpaceAfter", FType.bool),
            Value.bool b)])]).getD 0 []).getD 9 "" =
          "SpaceAfter=" ++ (if b then "Yes" else "No"))
    ∧ (∀ (wid : String) (raw : String),
        ((writeSentence [(wid, [(("UD/MISC", "SpaceAfter", FType.bool),
            Value.bool (raw ≠ "No"))])]).getD 0 []).getD 9 "" =
          "SpaceAfter=" ++ (if raw = "No" then "No" else "Yes")) := by
  have h2 : ∀ (wid : String) (b : Bool),
      ((writeSentence [(wid, [(("UD/MISC", "SpaceAfter", FType.bool),
          Value.bool b)])]).getD 0 []).getD 9 "" =
        "SpaceAfter=" ++ (if b then "Yes" else "No") := by
    intro wid b
    cases b <;> rfl
  refine ⟨fun name group raw => by simp [pairOp], h2, ?_⟩
  intro wid raw
  by_cases hr : raw = "No"
  · simpa [hr] using h2 wid false
  · simpa [hr] using h2 wid true

/-- C10: a sentence whose first word has `null` true renders that word
at position `0:1`, because the major counter starts at 0. -/
theorem C10 (wid : String) (wfeats : Feats) (rest : List (String × Feats))
    (h : isNullOf wfeats = true) :
    ((writeSentence ((wid, wfeats) :: rest)).getD 0 []).getD 0 "" = "0:1" := by
  rw [col0_writeSentence]
  have h0 : (wordPass ((wid, wfeats) :: rest)).words.getD 0 [] =
      (wordStep ⟨[], [], 0, 0, []⟩ (wid, wfeats)).words.getD 0 [] := by
    unfold wordPass
    rw [List.foldl_cons]
    exact foldl_wordStep_prefix rest _ 0 (by rw [wordStep_words]; simp)
  rw [h0, wordStep_words]
  have h1 : ((([] : List (List String)) ++
      [(buildRow ((renderPos 0 0 (isNullOf wfeats)).2.2) wfeats).1]).getD 0 []) =
      (buildRow ((renderPos 0 0 (isNullOf wfeats)).2.2) wfeats).1 := rfl
  rw [h1, buildRow_col0, h]
  decide

/-- C10 witness: a sentence consisting of a single null word renders it
at position `0:1`. -/
theorem C10_witness :
    ((writeSentence [("0.1", [(("UD", "null", FType.bool),
        Value.bool true)])]).getD 0 []).getD 0 "" = "0:1" :=
  C10 "0.1" [(("UD", "null", FType.bool), Value.bool true)] [] (by decide)

/-- C9: the importer invokes the reader once per file in list order; a
file whose decode raises a `ReaderError` is logged as a failure and the
batch continues with the next file, so no file whose failure is a decode
error aborts the rest. -/
theorem C9 (decode : String → Option PyError) (files : List String)
    (h : ∀ f ∈ files, (decode f).all PyError.isReaderError = true) :
    importerRun decode files =
      (files.map (fun f => (f, (decode f).isNone)), none) := by
  induction files with
  | nil => rfl
  | cons pth rest ih =>
    have hp := h pth (List.mem_cons_self pth rest)
    have hr : ∀ f ∈ rest, (decode f).all PyError.isReaderError = true :=
      fun f hf => h f (List.mem_cons_of_mem _ hf)
    cases hd : decode pth with
    | none => simp [importerRun, hd, ih hr]
    | some e =>
      rw [hd] at hp
      simp [Option.all] at hp
      simp [importerRun, hd, hp, ih hr]

/-- C9 witness: a three-file batch whose middle file fails with a
column-count error logs `a` ok, `b` failed, `c` ok, and does not abort. -/
theorem C9_witness :
    importerRun (fun f => if f = "b" then some (.columnCount 9) else none) ["a", "b", "c"] =
      ([("a", true), ("b", false), ("c", true)], none) := by
  have h := C9 (fun f => if f = "b" then some (.columnCount 9) else none)
    ["a", "b", "c"] (by decide)
  rw [h]
  decide

end Rebabel
